import Mathlib

/-!
A shallow embedding of redisocket: the client session (client.go), the hub
receive loop, the sender facade and the socket identifiers (hub.go), and the
message-queue worker (message_queue.go).

Go strings are Lean `String`s (a Go string holding valid UTF-8; removing a
substring byte-wise or character-wise is then the same), byte slices are lists of
naturals, Go `int` and Unix seconds are `Int`.  A buffered Go channel is a list
together with its capacity; the non-blocking `select { case ch <- x: default: }`
becomes `Chan.trySend`.  The `map[string]bool` holding a client's channels is an
association list; `for k := range m` walks the keys the map holds when the loop
starts.  Calls on the pool and commands sent to Redis are returned as values;
the JSON codec, the websocket frame preparation, the random source and the clock
are arguments.
-/

set_option linter.dupNamespace false

namespace Redisocket

/-! ## Data model (hub.go, client.go) -/

/-- Go `[]byte`. -/
abbrev Bytes := List Nat

/-- Handle returned by `websocket.NewPreparedMessage(messageType, data)`. -/
structure PreparedMessage where
  messageType : Nat
  data : Bytes
deriving DecidableEq, Repr

/-- Struct `Payload` of hub.go. -/
structure Payload where
  Len : Int
  Data : Bytes
  PrepareMessage : Option PreparedMessage
  IsPrepare : Bool
  Channel : String
  AppKey : String
deriving DecidableEq, Repr

/-- Buffered Go channel: capacity fixed by `make`, contents in arrival order. -/
structure Chan (α : Type) where
  cap : Nat
  buf : List α
deriving DecidableEq, Repr

/-- Go `make(chan T, n)`. -/
def Chan.make {α : Type} (n : Nat) : Chan α := ⟨n, []⟩

/-- Go `select { case ch <- x: ... default: ... }`: the send is taken when the
buffer has room, otherwise the default branch runs (`none`). -/
def Chan.trySend {α : Type} (ch : Chan α) (x : α) : Option (Chan α) :=
  if ch.buf.length < ch.cap then some { ch with buf := ch.buf ++ [x] } else none

/-- Go `map[string]bool`. -/
abbrev ChannelMap := List (String × Bool)

/-- Go `_, ok := m[k]`. -/
def ChannelMap.has (m : ChannelMap) (k : String) : Bool :=
  m.any (fun kv => kv.1 == k)

/-- Go `delete(m, k)`. -/
def ChannelMap.delete (m : ChannelMap) (k : String) : ChannelMap :=
  m.filter (fun kv => kv.1 != k)

/-- Go `m[k] = v`. -/
def ChannelMap.set (m : ChannelMap) (k : String) (v : Bool) : ChannelMap :=
  (k, v) :: ChannelMap.delete m k

/-- Keys seen by `for k := range m`. -/
def ChannelMap.keys (m : ChannelMap) : List String :=
  m.map Prod.fst

/-- Type `ReceiveMsgHandler` of hub.go: the bytes and the error (if any) returned. -/
abbrev ReceiveMsgHandler := Bytes → Bytes × Option String

/-- The part of `Hub` that a client reads. -/
structure Hub where
  ChannelPrefix : String
deriving DecidableEq, Repr

/-- Struct `Client` of client.go; `wsClosed` records that `ws.Close()` ran. -/
structure Client where
  appKey : String
  channels : ChannelMap
  sid : String
  uid : String
  send : Chan Payload
  wsClosed : Bool
  re : Option ReceiveMsgHandler
  hub : Hub

/-- Capacity of the send queue, `make(chan *Payload, 256)` in `Hub.Upgrade`. -/
def sendQueueCap : Nat := 256

/-- The client built by `Hub.Upgrade` once the websocket upgrade succeeded;
`sid` is the value `GenSocketID()` returned. -/
def Upgrade (e : Hub) (appKey : String) (sid : String) : Client :=
  { appKey := appKey
    channels := []
    sid := sid
    uid := ""
    send := Chan.make sendQueueCap
    wsClosed := false
    re := none
    hub := e }

/-! ## Redis sorted sets (the commands the repository issues) -/

/-- One sorted set: members with their scores. -/
abbrev ZSet := List (String × Int)

/-- The sorted sets of the shared bus, by key. -/
abbrev Redis := String → ZSet

/-- Commands the client queues between `MULTI` and `EXEC`. -/
inductive RedisCmd where
  | zadd (key : String) (score : Int) (member : String)
  | zrem (key : String) (member : String)
deriving DecidableEq, Repr

/-- Redis `ZADD key CH score member`: the member ends up with exactly this score. -/
def ZADD (r : Redis) (key : String) (score : Int) (member : String) : Redis :=
  fun k => if k = key then (member, score) :: (r k).filter (fun ms => ms.1 != member) else r k

/-- Redis `ZREM key member`. -/
def ZREM (r : Redis) (key : String) (member : String) : Redis :=
  fun k => if k = key then (r k).filter (fun ms => ms.1 != member) else r k

/-- Redis `ZRANGEBYSCORE key min max`: the members whose score lies in the closed
interval; the order of the reply is not modelled. -/
def ZRANGEBYSCORE (r : Redis) (key : String) (lo hi : Int) : List String :=
  ((r key).filter (fun ms => decide (lo ≤ ms.2) && decide (ms.2 ≤ hi))).map Prod.fst

/-- Effect of one queued command. -/
def RedisCmd.apply (r : Redis) : RedisCmd → Redis
  | RedisCmd.zadd key score member => ZADD r key score member
  | RedisCmd.zrem key member => ZREM r key member

/-- Redis `EXEC`: the queued commands run in order. -/
def exec (r : Redis) (cmds : List RedisCmd) : Redis :=
  cmds.foldl RedisCmd.apply r

/-! ## Client operations (client.go) -/

/-- `Client.contains`. -/
def contains : List String → String → Bool
  | [], _ => false
  | n :: a, x => if x == n then true else contains a x

/-- Body of the loop of `Client.SetChannels`, over the keys still to visit. -/
def SetChannelsLoop (channels : List String) : List String → ChannelMap → ChannelMap
  | [], m => m
  | k :: ks, m =>
    SetChannelsLoop channels ks (if !contains channels k then ChannelMap.delete m k else m)

/-- `Client.SetChannels`. -/
def Client.SetChannels (c : Client) (channels : List String) : Client :=
  { c with channels := SetChannelsLoop channels (ChannelMap.keys c.channels) c.channels }

/-- `Client.AddChannel`. -/
def Client.AddChannel (c : Client) (channel : String) : Client :=
  { c with channels := ChannelMap.set c.channels channel true }

/-- `Client.Close`. -/
def Client.Close (c : Client) : Client :=
  { c with wsClosed := true }

/-- Commands `Client.Sub` queues, `nt` being `time.Now().Unix()`. -/
def Client.SubCmds (c : Client) (channel : String) (nt : Int) : List RedisCmd :=
  (if c.uid != "" then
      [RedisCmd.zadd (c.hub.ChannelPrefix ++ c.appKey ++ "@" ++ "online") nt c.uid]
    else []) ++
  [RedisCmd.zadd (c.hub.ChannelPrefix ++ c.appKey ++ "@" ++ "channels:" ++ channel) nt c.sid]

/-- `Client.Sub`. -/
def Client.Sub (c : Client) (r : Redis) (channel : String) (nt : Int) : Client × Redis :=
  ({ c with channels := ChannelMap.set c.channels channel true },
   exec r (Client.SubCmds c channel nt))

/-- `Client.UnSub`. -/
def Client.UnSub (c : Client) (r : Redis) (channel : String) : Client × Redis :=
  ({ c with channels := ChannelMap.delete c.channels channel },
   exec r [RedisCmd.zrem (c.hub.ChannelPrefix ++ c.appKey ++ "@" ++ "channels:" ++ channel) c.sid])

/-- `Client.Trigger`: the returned error (if any) and the client afterwards. -/
def Client.Trigger (c : Client) (channel : String) (p : Payload) : Option String × Client :=
  if !ChannelMap.has c.channels channel then (some "no channel", c)
  else if p.AppKey != c.appKey then (some "no appKey", c)
  else
    match c.send.trySend p with
    | some ch => (none, { c with send := ch })
    | none => (none, Client.Close c)

/-- The payload `Client.Send` builds from `data`. -/
def sendPayload (data : Bytes) : Payload :=
  { Len := (data.length : Int)
    Data := data
    PrepareMessage := none
    IsPrepare := false
    Channel := ""
    AppKey := "" }

/-- `Client.Send`. -/
def Client.Send (c : Client) (data : Bytes) : Client :=
  match c.send.trySend (sendPayload data) with
  | some ch => { c with send := ch }
  | none => Client.Close c

/-! ## Sequences of calls on one client -/

/-- A call on the client. -/
inductive Op where
  | sub (channel : String) (nt : Int)
  | unSub (channel : String)
  | addChannel (channel : String)
  | setChannels (channels : List String)
  | trigger (channel : String) (p : Payload)
  | send (data : Bytes)
deriving Repr

/-- A client together with the bus it writes to. -/
structure World where
  client : Client
  redis : Redis

/-- Effect of one call. -/
def step (w : World) : Op → World
  | Op.sub channel nt =>
    let cr := Client.Sub w.client w.redis channel nt
    ⟨cr.1, cr.2⟩
  | Op.unSub channel =>
    let cr := Client.UnSub w.client w.redis channel
    ⟨cr.1, cr.2⟩
  | Op.addChannel channel => ⟨Client.AddChannel w.client channel, w.redis⟩
  | Op.setChannels channels => ⟨Client.SetChannels w.client channels, w.redis⟩
  | Op.trigger channel p => ⟨(Client.Trigger w.client channel p).2, w.redis⟩
  | Op.send data => ⟨Client.Send w.client data, w.redis⟩

/-- Effect of a sequence of calls, first call first. -/
def run (w : World) (ops : List Op) : World :=
  ops.foldl step w

/-- The bus with no sorted set written yet. -/
def emptyRedis : Redis := fun _ => []

/-! ## Bus names (hub.go, `Hub.listenRedis` and `Sender.Push`) -/

/-- Scan of Go `strings.Replace(s, old, "", -1)` for a non-empty `old`: `skip`
counts the characters of a matched occurrence still to drop. -/
def removeAllAux (old : List Char) : Nat → List Char → List Char
  | _, [] => []
  | skip + 1, _ :: s => removeAllAux old skip s
  | 0, c :: s =>
    if old.isPrefixOf (c :: s) then removeAllAux old (old.length - 1) s
    else c :: removeAllAux old 0 s

/-- Go `strings.Replace(s, old, "", -1)`: every non-overlapping occurrence of `old`,
leftmost first, is removed; an empty `old` leaves `s` as it is. -/
def Replace (s old : String) : String :=
  if old.data = [] then s else String.mk (removeAllAux old.data 0 s.data)

/-- Go `strings.Cut(s, sep)` for a one-character separator. -/
def cutAt (sep : Char) : List Char → Option (List Char × List Char)
  | [] => none
  | c :: s =>
    if c = sep then some ([], s)
    else match cutAt sep s with
      | some ab => some (c :: ab.1, ab.2)
      | none => none

/-- Go `strings.SplitN(s, sep, 2)` for a one-character separator. -/
def SplitN2 (s : String) (sep : Char) : List String :=
  match cutAt sep s.data with
  | some ab => [String.mk ab.1, String.mk ab.2]
  | none => [s]

/-- The name `Sender.Push` publishes on. -/
def Sender.PushName (channelPrefix appKey channel : String) : String :=
  channelPrefix ++ appKey ++ "@" ++ channel

/-- Head of `Hub.listenRedis` for one `redis.Message`: the `(appKey, channel)` it
dispatches on, or `none` when the loop continues without dispatching. -/
def parseName (e : Hub) (vChannel : String) : Option (String × String) :=
  let channel := Replace vChannel e.ChannelPrefix
  let sch := SplitN2 channel '@'
  if sch.length != 2 then none
  else
    let appKey := sch.getD 0 ""
    let channel := Replace (sch.getD 1 "") "*"
    some (appKey, channel)

/-! ## Hub dispatch (hub.go, `Hub.listenRedis`) -/

/-- Struct `userPayload`, `Data` being any JSON value. -/
structure userPayload (J : Type) where
  Uid : String
  Data : J

/-- Struct `socketPayload`. -/
structure socketPayload (J : Type) where
  Sid : String
  Data : J

/-- Struct `reloadChannelPayload`. -/
structure reloadChannelPayload where
  Uid : String
  Channels : List String

/-- Struct `addChannelPayload`. -/
structure addChannelPayload where
  Uid : String
  Channel : String

/-- The library calls of the receive loop: `json.Unmarshal` into each envelope,
`json.Marshal` of a decoded value, `websocket.NewPreparedMessage`. -/
structure Codec (J : Type) where
  unmarshalUser : Bytes → Option (userPayload J)
  unmarshalSocket : Bytes → Option (socketPayload J)
  unmarshalReload : Bytes → Option reloadChannelPayload
  unmarshalAdd : Bytes → Option addChannelPayload
  marshal : J → Option Bytes
  newPreparedMessage : Nat → Bytes → Option PreparedMessage

/-- Value `redis.Message`. -/
structure Message where
  Channel : String
  Data : Bytes

/-- A call on the pool. -/
inductive PoolAction where
  | toUid (uid : String) (b : Bytes)
  | toSid (sid : String) (b : Bytes)
  | reloadUidChannels (uid : String) (channels : List String)
  | addUidChannels (uid : String) (channel : String)
  | broadcast (channel : String) (p : Payload)
  | kickSid (sid : String)
deriving DecidableEq, Repr

/-- Constant `websocket.TextMessage`. -/
def TextMessage : Nat := 1

/-- Body of the `redis.Message` case of `Hub.listenRedis`: the pool calls made for
one message. -/
def listenRedisMessage {J : Type} (k : Codec J) (e : Hub) (v : Message) : List PoolAction :=
  match parseName e v.Channel with
  | none => []
  | some (appKey, channel) =>
    if channel = "#GUSHERFUNC-TOUID#" then
      match k.unmarshalUser v.Data with
      | none => []
      | some up =>
        match k.marshal up.Data with
        | none => []
        | some b => [PoolAction.toUid up.Uid b]
    else if channel = "#GUSHERFUNC-TOSID#" then
      match k.unmarshalSocket v.Data with
      | none => []
      | some up =>
        match k.marshal up.Data with
        | none => []
        | some b => [PoolAction.toSid up.Sid b]
    else if channel = "#GUSHERFUNC-RELOADCHANEL#" then
      match k.unmarshalReload v.Data with
      | none => []
      | some up => [PoolAction.reloadUidChannels up.Uid up.Channels]
    else if channel = "#GUSHERFUNC-ADDCHANEL#" then
      match k.unmarshalAdd v.Data with
      | none => []
      | some up => [PoolAction.addUidChannels up.Uid up.Channel]
    else
      match k.newPreparedMessage TextMessage v.Data with
      | none => []
      | some pMsg =>
        [PoolAction.broadcast channel
          { Len := (v.Data.length : Int)
            Data := []
            PrepareMessage := some pMsg
            IsPrepare := true
            Channel := channel
            AppKey := appKey }]

/-! ## Socket identifiers (hub.go, `GenSocketID` and `randDigit`) -/

/-- Table `digits`. -/
def digits : List Char := "0123456789".data

/-- Loop of `randDigit`: `src i` is the value of the `i`-th `rand.Int(rand.Reader, 10)`,
`pos` the number of draws made so far; `none` when `digits[idx]` is out of range. -/
def randDigitLoop (src : Nat → Nat) : Nat → Nat → Option (List Char)
  | 0, _ => some []
  | n + 1, pos =>
    match digits.get? (src pos) with
    | none => none
    | some d =>
      match randDigitLoop src n (pos + 1) with
      | none => none
      | some b => some (d :: b)

/-- `randDigit(n)`: the string and the number of draws made afterwards. -/
def randDigit (src : Nat → Nat) (pos : Nat) (n : Nat) : Option (String × Nat) :=
  match randDigitLoop src n pos with
  | none => none
  | some b => some (String.mk b, pos + n)

/-- `GenSocketID`. -/
def GenSocketID (src : Nat → Nat) : Option String :=
  match randDigit src 0 4 with
  | none => none
  | some (a, pos) =>
    match randDigit src pos 7 with
    | none => none
    | some (b, _) => some (a ++ "." ++ b)

/-! ## Presence queries (hub.go, `Sender`) -/

/-- `Sender.GetOnlineByChannel`, `nt` being `time.Now().Unix()`. -/
def Sender.GetOnlineByChannel (r : Redis) (channelPrefix appKey channel : String) (nt : Int) :
    List String :=
  let memberKey := channelPrefix ++ appKey ++ "@channels:" ++ channel
  let dt := nt - 120
  ZRANGEBYSCORE r memberKey dt nt

/-- `Sender.GetOnline`, `nt` being `time.Now().Unix()`. -/
def Sender.GetOnline (r : Redis) (channelPrefix appKey : String) (nt : Int) : List String :=
  let memberKey := channelPrefix ++ appKey ++ "@online"
  let dt := nt - 120
  ZRANGEBYSCORE r memberKey dt nt

/-! ## Message queue (message_queue.go) -/

/-- Ingress buffer, as `readPump` builds it: `&buffer{buffer: ..., client: c}`. -/
structure buffer where
  buffer : Bytes
  client : Option Client

/-- Modelled from the spec: `buffer.reset` is not among the sources; "the buffer is
reset (detaching any client reference)", so the bytes are emptied and the client
reference becomes the argument. -/
def buffer.reset (b : Redisocket.buffer) (c : Option Client) : Redisocket.buffer :=
  { b with buffer := [], client := c }

/-- Struct `messageQueue`; the calls on `pool` are returned by `serve`. -/
structure messageQueue where
  serveChan : Chan buffer
  freeBufferChan : Chan buffer

/-- The message queue `NewHub` builds. -/
def NewHubMessageQueue : messageQueue :=
  { freeBufferChan := Chan.make 8192
    serveChan := Chan.make 8192 }

/-- `messageQueue.serve`: the pool calls made and the queue afterwards; `none`
when the buffer has no client or the client no handler (nil dereference). -/
def messageQueue.serve (m : messageQueue) (b : buffer) :
    Option (List PoolAction × messageQueue) :=
  match b.client with
  | none => none
  | some c =>
    match c.re with
    | none => none
    | some re =>
      let res := re b.buffer
      let acts :=
        match res.2 with
        | none =>
          if res.1.length > 0 then [PoolAction.toSid c.sid res.1] else []
        | some _ => [PoolAction.kickSid c.sid]
      let b1 := buffer.reset b none
      match m.freeBufferChan.trySend b1 with
      | some ch => some (acts, { m with freeBufferChan := ch })
      | none => some (acts, m)

/-- A run of `serve` calls, one worker after another; `none` as soon as one fails. -/
def serveAll (m : messageQueue) : List buffer → Option (List PoolAction × messageQueue)
  | [] => some ([], m)
  | b :: bs =>
    match messageQueue.serve m b with
    | none => none
    | some (acts, m1) =>
      match serveAll m1 bs with
      | none => none
      | some (rest, m2) => some (acts ++ rest, m2)

/-- Scenario 4 of the specification: a client subscribed to `a`, `b`, `c` whose
channels are then reloaded with `["b", "d"]`. -/
def reloadScenario : Client :=
  (run ⟨Upgrade ⟨"p."⟩ "K" "0000.0000000", emptyRedis⟩
    [Op.sub "a" 0, Op.sub "b" 0, Op.sub "c" 0, Op.setChannels ["b", "d"]]).client

/-- A payload of tenant `K` published on `room`. -/
def roomPayload : Payload :=
  { Len := 5
    Data := []
    PrepareMessage := some ⟨TextMessage, [104, 101, 108, 108, 111]⟩
    IsPrepare := true
    Channel := "room"
    AppKey := "K" }

/-- A client of tenant `K` subscribed to `room` with one payload queued. -/
def roomClient : Client :=
  (run ⟨Upgrade ⟨"p."⟩ "K" "0000.0000000", emptyRedis⟩
    [Op.sub "room" 0, Op.send [1]]).client

/-- The client `roomClient` with its send queue filled to capacity. -/
def fullClient : Client :=
  { roomClient with send := ⟨256, List.replicate 256 roomPayload⟩ }

/-- The specification's reading of the channel clean-up, "strip any trailing `*`":
only the stars at the end of the name go. -/
def stripTrailingStars (s : String) : String :=
  String.mk (s.data.reverse.dropWhile (fun c => c == '*')).reverse

/-- Scenario 6 of the specification: a client of tenant `K` whose uid is `U`. -/
def presenceClient : Client :=
  { Upgrade ⟨"p."⟩ "K" "0000.0000000" with uid := "U" }

/-- A toy codec: an envelope is its first byte (the identifier, in decimal)
followed by the data; an empty envelope does not decode. -/
def demoCodec : Codec Bytes :=
  { unmarshalUser := fun d =>
      match d with
      | [] => none
      | u :: rest => some ⟨toString u, rest⟩
    unmarshalSocket := fun d =>
      match d with
      | [] => none
      | u :: rest => some ⟨toString u, rest⟩
    unmarshalReload := fun d =>
      match d with
      | [] => none
      | u :: rest => some ⟨toString u, rest.map toString⟩
    unmarshalAdd := fun d =>
      match d with
      | [u, ch] => some ⟨toString u, toString ch⟩
      | _ => none
    marshal := fun j => some j
    newPreparedMessage := fun t d => some ⟨t, d⟩ }

/-- A handler that sends back what it received. -/
def echoHandler : ReceiveMsgHandler := fun d => (d, none)

/-- A client listening with `echoHandler`. -/
def echoClient : Client :=
  { Upgrade ⟨"p."⟩ "K" "0000.0000000" with re := some echoHandler }

/-- What holds of a client's send queue whatever calls were made: the tenant is
the one given at upgrade, the capacity is the one given at upgrade, the queue is
within it, and each queued payload carries the tenant or was built by `Send`. -/
def QueueInv (appKey : String) (c : Client) : Prop :=
  c.appKey = appKey ∧ c.send.cap = sendQueueCap ∧ c.send.buf.length ≤ sendQueueCap ∧
  ∀ p ∈ c.send.buf, p.AppKey = appKey ∨ ∃ data, p = sendPayload data

/-! ## Lemmas: channel maps -/

theorem contains_iff_mem (a : List String) (x : String) : contains a x = true ↔ x ∈ a := by
  induction a with
  | nil => simp [contains]
  | cons n a ih =>
    by_cases h : x = n
    · simp [contains, h]
    · simp [contains, h, ih]

theorem has_iff (m : ChannelMap) (k : String) :
    ChannelMap.has m k = true ↔ ∃ v, (k, v) ∈ m := by
  unfold ChannelMap.has
  rw [List.any_eq_true]
  constructor
  · rintro ⟨⟨k1, v⟩, hmem, hk⟩
    have : k1 = k := by simpa using hk
    subst this
    exact ⟨v, hmem⟩
  · rintro ⟨v, hmem⟩
    exact ⟨(k, v), hmem, by simp⟩

theorem has_set (m : ChannelMap) (k x : String) (v : Bool) :
    ChannelMap.has (ChannelMap.set m k v) x = true ↔ (x = k ∨ ChannelMap.has m x = true) := by
  simp only [has_iff, ChannelMap.set, ChannelMap.delete, List.mem_cons, List.mem_filter,
    Prod.mk.injEq]
  constructor
  · rintro ⟨b, h | h⟩
    · exact Or.inl h.1
    · exact Or.inr ⟨b, h.1⟩
  · rintro (h | ⟨b, h⟩)
    · exact ⟨v, Or.inl ⟨h, rfl⟩⟩
    · by_cases hx : x = k
      · exact ⟨v, Or.inl ⟨hx, rfl⟩⟩
      · exact ⟨b, Or.inr ⟨h, by simpa using hx⟩⟩

theorem SetChannelsLoop_eq_filter (channels ks : List String) (m : ChannelMap) :
    SetChannelsLoop channels ks m
      = m.filter (fun kv => !(decide (kv.1 ∈ ks)) || contains channels kv.1) := by
  induction ks generalizing m with
  | nil => simp [SetChannelsLoop]
  | cons k ks ih =>
    rw [SetChannelsLoop, ih]
    by_cases hk : contains channels k = true
    · simp only [hk, Bool.not_true, Bool.false_eq_true, if_false]
      apply List.filter_congr
      intro kv _
      by_cases h1 : kv.1 = k
      · simp [h1, hk]
      · simp [h1]
    · have hk2 : contains channels k = false := by simpa using hk
      simp only [hk2, Bool.not_false, if_true, ChannelMap.delete, List.filter_filter]
      apply List.filter_congr
      intro kv _
      by_cases h1 : kv.1 = k
      · simp [h1, hk2]
      · simp [h1]

theorem SetChannels_channels (c : Client) (channels : List String) :
    (Client.SetChannels c channels).channels
      = c.channels.filter (fun kv => contains channels kv.1) := by
  simp only [Client.SetChannels, SetChannelsLoop_eq_filter]
  apply List.filter_congr
  intro kv hkv
  have : kv.1 ∈ ChannelMap.keys c.channels := List.mem_map_of_mem Prod.fst hkv
  simp [this]

theorem has_SetChannels (c : Client) (channels : List String) (k : String) :
    ChannelMap.has (Client.SetChannels c channels).channels k = true
      ↔ (ChannelMap.has c.channels k = true ∧ k ∈ channels) := by
  rw [SetChannels_channels]
  simp only [has_iff, List.mem_filter, contains_iff_mem]
  constructor
  · rintro ⟨v, h1, h2⟩
    exact ⟨⟨v, h1⟩, h2⟩
  · rintro ⟨⟨v, h1⟩, h2⟩
    exact ⟨v, h1, h2⟩

/-! ## Lemmas: the send queue -/

theorem trySend_some {α : Type} (ch : Chan α) (x : α) (h : ch.buf.length < ch.cap) :
    ch.trySend x = some { ch with buf := ch.buf ++ [x] } := by
  simp [Chan.trySend, h]

theorem trySend_none {α : Type} (ch : Chan α) (x : α) (h : ¬ ch.buf.length < ch.cap) :
    ch.trySend x = none := by
  simp [Chan.trySend, h]

theorem QueueInv_enqueue (appKey : String) (c : Client) (p : Payload)
    (hp : p.AppKey = appKey ∨ ∃ data, p = sendPayload data) (h : QueueInv appKey c) :
    QueueInv appKey
      (match c.send.trySend p with
        | some ch => { c with send := ch }
        | none => Client.Close c) := by
  obtain ⟨h1, h2, h3, h4⟩ := h
  by_cases hlen : c.send.buf.length < c.send.cap
  · rw [trySend_some _ _ hlen]
    refine ⟨h1, h2, ?_, ?_⟩
    · simp only [List.length_append, List.length_singleton]
      rw [h2] at hlen
      omega
    · intro q hq
      simp only [List.mem_append, List.mem_singleton] at hq
      rcases hq with hq | hq
      · exact h4 q hq
      · rw [hq]; exact hp
  · rw [trySend_none _ _ hlen]
    exact ⟨h1, h2, h3, h4⟩

theorem QueueInv_step (appKey : String) (w : World) (op : Op) (h : QueueInv appKey w.client) :
    QueueInv appKey (step w op).client := by
  cases op with
  | sub channel nt => exact h
  | unSub channel => exact h
  | addChannel channel => exact h
  | setChannels channels => exact h
  | trigger channel p =>
    simp only [step, Client.Trigger]
    by_cases hc : ChannelMap.has w.client.channels channel = true
    · by_cases hk : p.AppKey = w.client.appKey
      · simp only [hc, hk, Bool.not_true, Bool.false_eq_true, if_false, bne_self_eq_false]
        have := QueueInv_enqueue appKey w.client p (Or.inl (hk.trans h.1)) h
        revert this
        cases w.client.send.trySend p <;> exact id
      · have hk2 : (p.AppKey != w.client.appKey) = true := by simpa using hk
        simp only [hc, hk2, Bool.not_true, Bool.false_eq_true, if_false, if_true]
        exact h
    · have hc2 : ChannelMap.has w.client.channels channel = false := by simpa using hc
      simp only [hc2, Bool.not_false, if_true]
      exact h
  | send data =>
    simp only [step, Client.Send]
    exact QueueInv_enqueue appKey w.client (sendPayload data) (Or.inr ⟨data, rfl⟩) h

theorem QueueInv_run (appKey : String) (ops : List Op) (w : World)
    (h : QueueInv appKey w.client) : QueueInv appKey (run w ops).client := by
  induction ops generalizing w with
  | nil => exact h
  | cons op ops ih => exact ih (step w op) (QueueInv_step appKey w op h)

theorem QueueInv_Upgrade (e : Hub) (appKey sid : String) :
    QueueInv appKey (Upgrade e appKey sid) := by
  refine ⟨rfl, rfl, ?_, ?_⟩
  · simp [Upgrade, Chan.make]
  · intro p hp
    simp [Upgrade, Chan.make] at hp

/-! ## The send queue: tenant isolation, rejection, backpressure -/

/-- C1, as stated, fails: after a single `Send` on a client of tenant `K` the
queue holds a payload whose `AppKey` is empty, not `K`. -/
theorem Send_enqueues_foreign_appKey :
    ∃ p ∈ (run ⟨Upgrade ⟨"p."⟩ "K" "0000.0000000", emptyRedis⟩ [Op.send []]).client.send.buf,
      p.AppKey ≠ (run ⟨Upgrade ⟨"p."⟩ "K" "0000.0000000", emptyRedis⟩
        [Op.send []]).client.appKey := by
  decide

/-- C1, amended: in every state reached from `Upgrade` by any sequence of calls
(Trigger and Send among them) the client keeps its appKey and every payload on
its send queue either carries that appKey or is a payload built by `Send`
(empty AppKey, not prepared); and `Trigger` itself leaves the queue as it is or
appends a payload whose AppKey is the client's. -/
theorem send_queue_tenant_isolation (e : Hub) (appKey sid : String) (r : Redis)
    (ops : List Op) :
    (run ⟨Upgrade e appKey sid, r⟩ ops).client.appKey = appKey ∧
    (∀ p ∈ (run ⟨Upgrade e appKey sid, r⟩ ops).client.send.buf,
      p.AppKey = appKey ∨ ∃ data, p = sendPayload data) ∧
    (∀ (c : Client) (channel : String) (p : Payload),
      (Client.Trigger c channel p).2.send.buf = c.send.buf ∨
      ((Client.Trigger c channel p).2.send.buf = c.send.buf ++ [p] ∧ p.AppKey = c.appKey)) := by
  have h := QueueInv_run appKey ops ⟨Upgrade e appKey sid, r⟩ (QueueInv_Upgrade e appKey sid)
  refine ⟨h.1, h.2.2.2, ?_⟩
  intro c channel p
  unfold Client.Trigger
  by_cases hc : ChannelMap.has c.channels channel = true
  · by_cases hk : p.AppKey = c.appKey
    · simp only [hc, hk, Bool.not_true, Bool.false_eq_true, if_false, bne_self_eq_false]
      by_cases hlen : c.send.buf.length < c.send.cap
      · rw [trySend_some _ _ hlen]
        exact Or.inr ⟨rfl, trivial⟩
      · rw [trySend_none _ _ hlen]
        exact Or.inl rfl
    · have hk2 : (p.AppKey != c.appKey) = true := by simpa using hk
      simp only [hc, hk2, Bool.not_true, Bool.false_eq_true, if_false, if_true]
      exact Or.inl trivial
  · have hc2 : ChannelMap.has c.channels channel = false := by simpa using hc
    simp only [hc2, Bool.not_false, if_true]
    exact Or.inl trivial

/-- Instance of `send_queue_tenant_isolation`: after Sub, Trigger and Send the
triggered payload is on the queue and carries the tenant `K`. -/
theorem send_queue_tenant_isolation_witness :
    roomPayload ∈ (run ⟨Upgrade ⟨"p."⟩ "K" "0000.0000000", emptyRedis⟩
      [Op.sub "room" 0, Op.trigger "room" roomPayload, Op.send [1]]).client.send.buf ∧
    (roomPayload.AppKey = "K" ∨ ∃ data, roomPayload = sendPayload data) :=
  ⟨by decide,
   (send_queue_tenant_isolation ⟨"p."⟩ "K" "0000.0000000" emptyRedis
      [Op.sub "room" 0, Op.trigger "room" roomPayload, Op.send [1]]).2.1 roomPayload (by decide)⟩

/-- C2: `Trigger` returns "no channel" exactly when the channel is not in the
client's channel set, whatever the payload's AppKey; it returns "no appKey"
exactly when the channel is in the set and the AppKey differs from the client's;
and whenever it returns an error the client is left as it was: same send queue,
same channel set, not closed by the call. -/
theorem Trigger_rejection (c : Client) (channel : String) (p : Payload) :
    ((Client.Trigger c channel p).1 = some "no channel"
      ↔ ChannelMap.has c.channels channel = false) ∧
    ((Client.Trigger c channel p).1 = some "no appKey"
      ↔ (ChannelMap.has c.channels channel = true ∧ p.AppKey ≠ c.appKey)) ∧
    ((Client.Trigger c channel p).1 ≠ none →
      ((Client.Trigger c channel p).2 = c ∧
       (Client.Trigger c channel p).2.send = c.send ∧
       (Client.Trigger c channel p).2.channels = c.channels ∧
       (Client.Trigger c channel p).2.wsClosed = c.wsClosed)) := by
  unfold Client.Trigger
  by_cases hc : ChannelMap.has c.channels channel = true
  · by_cases hk : p.AppKey = c.appKey
    · simp only [hc, hk, Bool.not_true, Bool.false_eq_true, if_false, bne_self_eq_false]
      cases c.send.trySend p <;> simp
    · have hk2 : (p.AppKey != c.appKey) = true := by simpa using hk
      simp only [hc, hk2, Bool.not_true, Bool.false_eq_true, if_false, if_true]
      refine ⟨?_, ?_, ?_⟩
      · simp
      · simp [hk]
      · intro _; simp
  · have hc2 : ChannelMap.has c.channels channel = false := by simpa using hc
    simp only [hc2, Bool.not_false, if_true]
    refine ⟨?_, ?_, ?_⟩
    · simp
    · simp
    · intro _; simp

/-- Instance of `Trigger_rejection`: a payload of another tenant triggered on a
subscribed channel is refused and the client stays as it was. -/
theorem Trigger_rejection_witness :
    (Client.Trigger roomClient "room" (sendPayload [7])).1 ≠ none ∧
    (Client.Trigger roomClient "room" (sendPayload [7])).2 = roomClient :=
  ⟨by decide,
   ((Trigger_rejection roomClient "room" (sendPayload [7])).2.2 (by decide)).1⟩

/-- C3: the send queue built by `Upgrade` has capacity 256 and after any sequence
of calls holds at most 256 payloads; on a client whose queue has capacity 256, a
`Trigger` that passes the channel and appKey checks, or a `Send`, issued when the
queue holds 256 payloads leaves the queue contents unchanged and closes the
client, and issued when the queue holds fewer than 256 appends the payload at the
tail and does not close the client. -/
theorem send_queue_bounded :
    (∀ (e : Hub) (appKey sid : String) (r : Redis) (ops : List Op),
      (run ⟨Upgrade e appKey sid, r⟩ ops).client.send.cap = 256 ∧
      (run ⟨Upgrade e appKey sid, r⟩ ops).client.send.buf.length ≤ 256) ∧
    (∀ (c : Client) (channel : String) (p : Payload),
      c.send.cap = 256 → ChannelMap.has c.channels channel = true → p.AppKey = c.appKey →
      (c.send.buf.length = 256 →
        (Client.Trigger c channel p).2.send.buf = c.send.buf ∧
        (Client.Trigger c channel p).2.wsClosed = true) ∧
      (c.send.buf.length < 256 →
        (Client.Trigger c channel p).2.send.buf = c.send.buf ++ [p] ∧
        (Client.Trigger c channel p).2.wsClosed = c.wsClosed)) ∧
    (∀ (c : Client) (data : Bytes),
      c.send.cap = 256 →
      (c.send.buf.length = 256 →
        (Client.Send c data).send.buf = c.send.buf ∧
        (Client.Send c data).wsClosed = true) ∧
      (c.send.buf.length < 256 →
        (Client.Send c data).send.buf = c.send.buf ++ [sendPayload data] ∧
        (Client.Send c data).wsClosed = c.wsClosed)) := by
  refine ⟨?_, ?_, ?_⟩
  · intro e appKey sid r ops
    have h := QueueInv_run appKey ops ⟨Upgrade e appKey sid, r⟩ (QueueInv_Upgrade e appKey sid)
    exact ⟨h.2.1, h.2.2.1⟩
  · intro c channel p hcap hc hk
    unfold Client.Trigger
    simp only [hc, hk, Bool.not_true, Bool.false_eq_true, if_false, bne_self_eq_false]
    constructor
    · intro hlen
      rw [trySend_none _ _ (by omega)]
      exact ⟨rfl, rfl⟩
    · intro hlen
      rw [trySend_some _ _ (by omega)]
      exact ⟨rfl, rfl⟩
  · intro c data hcap
    unfold Client.Send
    constructor
    · intro hlen
      rw [trySend_none _ _ (by omega)]
      exact ⟨rfl, rfl⟩
    · intro hlen
      rw [trySend_some _ _ (by omega)]
      exact ⟨rfl, rfl⟩

/-- Instance of `send_queue_bounded`: a Trigger on a client whose queue holds 256
payloads keeps the queue and closes the client. -/
theorem send_queue_bounded_witness :
    fullClient.send.cap = 256 ∧ ChannelMap.has fullClient.channels "room" = true ∧
    roomPayload.AppKey = fullClient.appKey ∧ fullClient.send.buf.length = 256 ∧
    (Client.Trigger fullClient "room" roomPayload).2.send.buf = fullClient.send.buf ∧
    (Client.Trigger fullClient "room" roomPayload).2.wsClosed = true :=
  ⟨rfl, by decide, by decide, List.length_replicate 256 roomPayload,
   (send_queue_bounded.2.1 fullClient "room" roomPayload rfl (by decide) (by decide)).1
     (List.length_replicate 256 roomPayload)⟩

/-! ## Channel reload -/

/-- C4, as stated, fails: reloading `{a, b, c}` with `["b", "d"]` does not put `d`
in the channel set, and a later Trigger on `d` is refused with "no channel". -/
theorem reload_does_not_add_channel :
    ChannelMap.has reloadScenario.channels "d" = false ∧
    (Client.Trigger reloadScenario "d" roomPayload).1 = some "no channel" := by
  decide

/-- C4, amended: after `SetChannels(L)` the client's channel set is exactly the
set of names of `L` that were in the set before; from `{a, b, c}` and
`["b", "d"]` the resulting set is `{b}`, a later Trigger on `b` is accepted
exactly when the payload carries the client's appKey, and Triggers on `a` and on
`d` are refused with "no channel". -/
theorem SetChannels_reload (c : Client) (L : List String) :
    (∀ k, ChannelMap.has (Client.SetChannels c L).channels k = true
      ↔ (ChannelMap.has c.channels k = true ∧ k ∈ L)) ∧
    (∀ k, ChannelMap.has reloadScenario.channels k = true ↔ k = "b") ∧
    (∀ p, (Client.Trigger reloadScenario "b" p).1 = none ↔ p.AppKey = "K") ∧
    (∀ p, (Client.Trigger reloadScenario "a" p).1 = some "no channel") ∧
    (∀ p, (Client.Trigger reloadScenario "d" p).1 = some "no channel") := by
  have hch : reloadScenario.channels = [("b", true)] := by decide
  have hkey : reloadScenario.appKey = "K" := by decide
  have hb : ChannelMap.has reloadScenario.channels "b" = true := by decide
  have ha : ChannelMap.has reloadScenario.channels "a" = false := by decide
  have hd : ChannelMap.has reloadScenario.channels "d" = false := by decide
  refine ⟨fun k => has_SetChannels c L k, ?_, ?_, ?_, ?_⟩
  · intro k
    rw [hch]
    simp only [ChannelMap.has, List.any_cons, List.any_nil, Bool.or_false, beq_iff_eq]
    exact eq_comm
  · intro p
    unfold Client.Trigger
    rw [hb, hkey]
    by_cases hk : p.AppKey = "K"
    · simp only [hk, iff_true, Bool.not_true, Bool.false_eq_true, if_false, bne_self_eq_false]
      cases reloadScenario.send.trySend p <;> rfl
    · have hk2 : (p.AppKey != "K") = true := by simpa using hk
      simp only [hk, hk2, iff_false, Bool.not_true, Bool.false_eq_true, if_false, if_true]
      intro h
      cases h
  · intro p
    unfold Client.Trigger
    rw [ha]
    rfl
  · intro p
    unfold Client.Trigger
    rw [hd]
    rfl

/-- C5: after `SetChannels(L)` a channel is in the client's set if and only if it
was in the set before and occurs in `L`; nothing is added (the new map is a
sublist of the old one); the bus is untouched; and a second `SetChannels(L)`
changes nothing. -/
theorem SetChannels_retains_listed (w : World) (L : List String) :
    (step w (Op.setChannels L)).client = Client.SetChannels w.client L ∧
    (∀ k, ChannelMap.has (Client.SetChannels w.client L).channels k = true
      ↔ (ChannelMap.has w.client.channels k = true ∧ k ∈ L)) ∧
    (∀ k, ChannelMap.has (Client.SetChannels w.client L).channels k = true →
      ChannelMap.has w.client.channels k = true) ∧
    List.Sublist (Client.SetChannels w.client L).channels w.client.channels ∧
    (step w (Op.setChannels L)).redis = w.redis ∧
    Client.SetChannels (Client.SetChannels w.client L) L = Client.SetChannels w.client L := by
  refine ⟨rfl, fun k => has_SetChannels w.client L k,
    fun k hk => ((has_SetChannels w.client L k).1 hk).1, ?_, rfl, ?_⟩
  · rw [SetChannels_channels]
    exact List.filter_sublist _
  · have h1 := SetChannels_channels (Client.SetChannels w.client L) L
    have h2 := SetChannels_channels w.client L
    have h3 : (Client.SetChannels (Client.SetChannels w.client L) L).channels
        = (Client.SetChannels w.client L).channels := by
      rw [h1, h2, List.filter_filter]
      apply List.filter_congr
      intro kv _
      simp
    calc Client.SetChannels (Client.SetChannels w.client L) L
        = { Client.SetChannels w.client L with
            channels := (Client.SetChannels (Client.SetChannels w.client L) L).channels } := rfl
      _ = { Client.SetChannels w.client L with
            channels := (Client.SetChannels w.client L).channels } := by rw [h3]

/-- Instance of `SetChannels_retains_listed`: in the reload scenario `b`, kept by
the reload, was subscribed before. -/
theorem SetChannels_retains_listed_witness :
    ChannelMap.has (Client.SetChannels
      (run ⟨Upgrade ⟨"p."⟩ "K" "0000.0000000", emptyRedis⟩
        [Op.sub "a" 0, Op.sub "b" 0, Op.sub "c" 0]).client ["b", "d"]).channels "b" = true ∧
    ChannelMap.has (run ⟨Upgrade ⟨"p."⟩ "K" "0000.0000000", emptyRedis⟩
        [Op.sub "a" 0, Op.sub "b" 0, Op.sub "c" 0]).client.channels "b" = true :=
  ⟨by decide,
   (SetChannels_retains_listed
      (run ⟨Upgrade ⟨"p."⟩ "K" "0000.0000000", emptyRedis⟩
        [Op.sub "a" 0, Op.sub "b" 0, Op.sub "c" 0]) ["b", "d"]).2.2.1 "b" (by decide)⟩

/-! ## Bus names -/

theorem removeAllAux_skip (old : List Char) (l1 l2 : List Char) :
    removeAllAux old l1.length (l1 ++ l2) = removeAllAux old 0 l2 := by
  induction l1 with
  | nil => rfl
  | cons x l1 ih => simpa [removeAllAux] using ih

theorem removeAllAux_self_append (old rest : List Char) (h : old ≠ []) :
    removeAllAux old 0 (old ++ rest) = removeAllAux old 0 rest := by
  cases old with
  | nil => exact absurd rfl h
  | cons o os =>
    have hp : (o :: os).isPrefixOf (o :: (os ++ rest)) = true := by
      rw [List.isPrefixOf_iff_prefix]
      exact ⟨rest, rfl⟩
    show removeAllAux (o :: os) 0 (o :: (os ++ rest)) = _
    rw [removeAllAux, if_pos hp]
    exact removeAllAux_skip (o :: os) os rest

theorem removeAllAux_absent (old s : List Char) (h : ¬ old <:+: s) :
    removeAllAux old 0 s = s := by
  induction s with
  | nil => rfl
  | cons c t ih =>
    have hp : ¬ old.isPrefixOf (c :: t) = true := by
      rw [List.isPrefixOf_iff_prefix]
      exact fun hpre => h hpre.isInfix
    rw [removeAllAux, if_neg hp, ih (fun hin => h (List.infix_cons hin))]

theorem removeAllAux_star (s : List Char) :
    removeAllAux ['*'] 0 s = s.filter (fun c => c != '*') := by
  induction s with
  | nil => rfl
  | cons c t ih =>
    by_cases hc : c = '*'
    · subst hc
      rw [removeAllAux, if_pos (by simp [List.isPrefixOf])]
      simpa using ih
    · rw [removeAllAux, if_neg (by simp [List.isPrefixOf, Ne.symm hc]), ih]
      simp [hc]

theorem cutAt_append (sep : Char) (a b : List Char) (h : sep ∉ a) :
    cutAt sep (a ++ sep :: b) = some (a, b) := by
  induction a with
  | nil => simp [cutAt]
  | cons c a ih =>
    have hc : c ≠ sep := fun hcs => h (by simp [hcs])
    have ha : sep ∉ a := fun hm => h (List.mem_cons_of_mem c hm)
    simp [cutAt, hc, ih ha]

theorem cutAt_none (sep : Char) (s : List Char) (h : sep ∉ s) : cutAt sep s = none := by
  induction s with
  | nil => rfl
  | cons c s ih =>
    have hc : c ≠ sep := fun hcs => h (by simp [hcs])
    have hs : sep ∉ s := fun hm => h (List.mem_cons_of_mem c hm)
    simp [cutAt, hc, ih hs]

theorem Replace_PushName (P A K : String)
    (hP : P = "" ∨ ¬ P.data <:+: (A ++ "@" ++ K).data) :
    Replace (Sender.PushName P A K) P = A ++ "@" ++ K := by
  unfold Replace Sender.PushName
  by_cases hnil : P.data = []
  · have : P = "" := String.ext hnil
    subst this
    simp
  · have habs : ¬ P.data <:+: (A ++ "@" ++ K).data := by
      rcases hP with h | h
      · exact absurd (by rw [h]) hnil
      · exact h
    rw [if_neg hnil]
    apply String.ext
    have hd : (P ++ A ++ "@" ++ K).data = P.data ++ (A ++ "@" ++ K).data := by
      simp [String.data_append, List.append_assoc]
    show removeAllAux P.data 0 (P ++ A ++ "@" ++ K).data = (A ++ "@" ++ K).data
    rw [hd, removeAllAux_self_append _ _ hnil, removeAllAux_absent _ _ habs]

theorem Replace_star (K : String) :
    Replace K "*" = String.mk (K.data.filter (fun c => c != '*')) := by
  unfold Replace
  have h1 : ("*" : String).data = ['*'] := rfl
  rw [h1, if_neg (by simp), removeAllAux_star]

theorem parseName_no_at (e : Hub) (name : String)
    (h : '@' ∉ (Replace name e.ChannelPrefix).data) : parseName e name = none := by
  simp only [parseName, SplitN2]
  rw [cutAt_none _ _ h]
  rfl

/-- C6, as stated, fails: a star inside the channel name is removed too (the channel
`a*b` is dispatched as `ab`, while stripping trailing stars would keep `a*b`), and
a prefix that occurs again inside the name is removed there as well (with prefix
`p`, appKey `app` and channel `ping` the loop dispatches on `a` and `ing`). -/
theorem parse_removes_inner_star_and_prefix :
    parseName ⟨"p."⟩ (Sender.PushName "p." "K" "a*b") = some ("K", "ab") ∧
    stripTrailingStars "a*b" = "a*b" ∧
    parseName ⟨"p."⟩ (Sender.PushName "p." "K" "a*b") ≠ some ("K", stripTrailingStars "a*b") ∧
    parseName ⟨"p"⟩ (Sender.PushName "p" "app" "ping") = some ("a", "ing") := by
  decide

/-- C6, amended: for every prefix P that is empty or does not occur inside
`A ++ "@" ++ K`, every appKey A containing no "@" and every channel K, the name
`P ++ A ++ "@" ++ K` that `Sender.Push` publishes on is parsed by the receive loop
into appKey A and the channel K with every "*" removed; and a name that has no
"@" once the prefix is removed produces no dispatch at all. -/
theorem bus_name_round_trip (e : Hub) (A K : String)
    (hA : '@' ∉ A.data)
    (hP : e.ChannelPrefix = "" ∨ ¬ e.ChannelPrefix.data <:+: (A ++ "@" ++ K).data) :
    parseName e (Sender.PushName e.ChannelPrefix A K)
      = some (A, String.mk (K.data.filter (fun c => c != '*'))) ∧
    (∀ name : String, '@' ∉ (Replace name e.ChannelPrefix).data →
      parseName e name = none ∧
      ∀ (J : Type) (k : Codec J) (data : Bytes), listenRedisMessage k e ⟨name, data⟩ = []) := by
  constructor
  · simp only [parseName]
    rw [Replace_PushName _ _ _ hP]
    have hd : (A ++ "@" ++ K).data = A.data ++ '@' :: K.data := by
      simp [String.data_append]
    have hs : SplitN2 (A ++ "@" ++ K) '@' = [A, K] := by
      unfold SplitN2
      rw [hd, cutAt_append _ _ _ hA]
    rw [hs]
    simp [Replace_star]
  · intro name h
    have hn := parseName_no_at e name h
    refine ⟨hn, ?_⟩
    intro J k data
    unfold listenRedisMessage
    rw [hn]

/-- Instance of `bus_name_round_trip`: prefix `p.`, appKey `K`, channel `room*`. -/
theorem bus_name_round_trip_witness :
    parseName ⟨"p."⟩ (Sender.PushName "p." "K" "room*") = some ("K", "room") ∧
    parseName ⟨"p."⟩ "p.nothing" = none :=
  ⟨(bus_name_round_trip ⟨"p."⟩ "K" "room*" (by decide) (Or.inr (by decide))).1,
   ((bus_name_round_trip ⟨"p."⟩ "K" "room*" (by decide) (Or.inr (by decide))).2
      "p.nothing" (by decide)).1⟩

/-! ## Socket identifiers -/

theorem digits_get (i : Nat) (h : i < 10) :
    ∃ d, digits.get? i = some d ∧ d.isDigit = true := by
  interval_cases i <;> exact ⟨_, rfl, by decide⟩

theorem randDigitLoop_ok (src : Nat → Nat) (h : ∀ i, src i < 10) (n pos : Nat) :
    ∃ b, randDigitLoop src n pos = some b ∧ b.length = n ∧ ∀ c ∈ b, c.isDigit = true := by
  induction n generalizing pos with
  | zero => exact ⟨[], rfl, rfl, by simp⟩
  | succ n ih =>
    obtain ⟨d, hd, hdig⟩ := digits_get (src pos) (h pos)
    obtain ⟨b, hb, hlen, hall⟩ := ih (pos + 1)
    refine ⟨d :: b, ?_, by simp [hlen], ?_⟩
    · simp only [randDigitLoop, hd, hb]
    · intro c hc
      rcases List.mem_cons.1 hc with hc | hc
      · rw [hc]; exact hdig
      · exact hall c hc

/-- C7: whatever the random source draws (each draw in [0, 10)), `GenSocketID`
returns a string, the indexing of the digit table never leaving its bounds; the
string is four decimal digits, a dot, then seven decimal digits, twelve
characters in all. -/
theorem GenSocketID_format (src : Nat → Nat) (h : ∀ i, src i < 10) :
    ∃ a b : List Char,
      GenSocketID src = some (String.mk (a ++ '.' :: b)) ∧
      a.length = 4 ∧ b.length = 7 ∧
      (∀ c ∈ a, c.isDigit = true) ∧ (∀ c ∈ b, c.isDigit = true) ∧
      (String.mk (a ++ '.' :: b)).length = 12 ∧
      (∀ i, src i < digits.length) := by
  obtain ⟨a, ha, hla, hda⟩ := randDigitLoop_ok src h 4 0
  obtain ⟨b, hb, hlb, hdb⟩ := randDigitLoop_ok src h 7 (0 + 4)
  refine ⟨a, b, ?_, hla, hlb, hda, hdb, ?_, h⟩
  · simp only [GenSocketID, randDigit, ha, hb]
    congr 1
    apply String.ext
    simp [String.data_append]
  · show (a ++ '.' :: b).length = 12
    simp [hla, hlb]

/-- Instance of `GenSocketID_format`: the source drawing 3, 0, 7, 4, 1, ... . -/
theorem GenSocketID_format_witness :
    GenSocketID (fun i => (i * 7 + 3) % 10) = some "3074.1852963" ∧
    ∃ a b : List Char,
      GenSocketID (fun i => (i * 7 + 3) % 10) = some (String.mk (a ++ '.' :: b)) ∧
      a.length = 4 ∧ b.length = 7 ∧
      (∀ c ∈ a, c.isDigit = true) ∧ (∀ c ∈ b, c.isDigit = true) ∧
      (String.mk (a ++ '.' :: b)).length = 12 ∧
      (∀ i, (fun i => (i * 7 + 3) % 10) i < digits.length) :=
  ⟨by decide,
   GenSocketID_format (fun i => (i * 7 + 3) % 10) (fun i => Nat.mod_lt _ (by decide))⟩

/-! ## Presence -/

theorem ZADD_other (r : Redis) (key k : String) (score : Int) (member : String)
    (h : k ≠ key) : ZADD r key score member k = r k := by
  simp [ZADD, h]

theorem mem_ZRANGEBYSCORE_ZADD (r : Redis) (key : String) (score lo hi : Int)
    (member : String) :
    member ∈ ZRANGEBYSCORE (ZADD r key score member) key lo hi ↔ (lo ≤ score ∧ score ≤ hi) := by
  simp only [ZRANGEBYSCORE, ZADD, if_true, List.mem_map, List.mem_filter, List.mem_cons,
    Bool.and_eq_true, decide_eq_true_eq]
  constructor
  · rintro ⟨⟨m, sc⟩, ⟨h1 | h1, h2⟩, h3⟩
    · cases h1
      exact h2
    · simp only at h3
      subst h3
      simp at h1
  · intro h
    exact ⟨(member, score), ⟨Or.inl rfl, h⟩, rfl⟩

theorem online_key (P A : String) : P ++ A ++ "@" ++ "online" = P ++ A ++ "@online" := by
  apply String.ext
  simp [String.data_append]

theorem channels_key (P A ch : String) :
    P ++ A ++ "@" ++ "channels:" ++ ch = P ++ A ++ "@channels:" ++ ch := by
  apply String.ext
  simp [String.data_append]

theorem online_ne_channels (P A ch : String) :
    P ++ A ++ "@online" ≠ P ++ A ++ "@channels:" ++ ch := by
  intro h
  have h2 := congrArg String.data h
  simp [String.data_append] at h2

/-- C8: after a client with non-empty uid U, appKey A and hub prefix P runs `Sub(r)`
at Unix time T0, and with the presence sets otherwise left alone, `GetOnline(P, A)`
at time T returns U exactly when T0 ≤ T ≤ T0 + 120, and
`GetOnlineByChannel(P, A, r)` returns the client's sid under the same condition;
the keys `Sub` writes are the keys the Sender reads; at T0 + 130 U is not
returned; and `Sub` on a client with empty uid queues no write to the online set
and leaves it as it was. -/
theorem presence_window (c : Client) (r : Redis) (ch : String) (T0 T : Int)
    (hU : c.uid ≠ "") :
    (c.uid ∈ Sender.GetOnline (Client.Sub c r ch T0).2 c.hub.ChannelPrefix c.appKey T
      ↔ (T0 ≤ T ∧ T ≤ T0 + 120)) ∧
    (c.sid ∈ Sender.GetOnlineByChannel (Client.Sub c r ch T0).2 c.hub.ChannelPrefix c.appKey ch T
      ↔ (T0 ≤ T ∧ T ≤ T0 + 120)) ∧
    Client.SubCmds c ch T0 =
      [RedisCmd.zadd (c.hub.ChannelPrefix ++ c.appKey ++ "@online") T0 c.uid,
       RedisCmd.zadd (c.hub.ChannelPrefix ++ c.appKey ++ "@channels:" ++ ch) T0 c.sid] ∧
    c.uid ∉ Sender.GetOnline (Client.Sub c r ch T0).2 c.hub.ChannelPrefix c.appKey (T0 + 130) ∧
    (∀ (c0 : Client) (r0 : Redis), c0.uid = "" →
      Client.SubCmds c0 ch T0 =
        [RedisCmd.zadd (c0.hub.ChannelPrefix ++ c0.appKey ++ "@channels:" ++ ch) T0 c0.sid] ∧
      (Client.Sub c0 r0 ch T0).2 (c0.hub.ChannelPrefix ++ c0.appKey ++ "@online")
        = r0 (c0.hub.ChannelPrefix ++ c0.appKey ++ "@online")) := by
  have hU2 : (c.uid != "") = true := by simpa using hU
  have hcmds : Client.SubCmds c ch T0 =
      [RedisCmd.zadd (c.hub.ChannelPrefix ++ c.appKey ++ "@online") T0 c.uid,
       RedisCmd.zadd (c.hub.ChannelPrefix ++ c.appKey ++ "@channels:" ++ ch) T0 c.sid] := by
    simp only [Client.SubCmds, hU2, if_true, online_key, channels_key]
    rfl
  have hstore : (Client.Sub c r ch T0).2 =
      ZADD (ZADD r (c.hub.ChannelPrefix ++ c.appKey ++ "@online") T0 c.uid)
        (c.hub.ChannelPrefix ++ c.appKey ++ "@channels:" ++ ch) T0 c.sid := by
    simp only [Client.Sub, hcmds]
    rfl
  have honline : ∀ T1 : Int,
      (c.uid ∈ Sender.GetOnline (Client.Sub c r ch T0).2 c.hub.ChannelPrefix c.appKey T1
        ↔ (T0 ≤ T1 ∧ T1 ≤ T0 + 120)) := by
    intro T1
    have hmem := mem_ZRANGEBYSCORE_ZADD r (c.hub.ChannelPrefix ++ c.appKey ++ "@online") T0
      (T1 - 120) T1 c.uid
    simp only [Sender.GetOnline, hstore]
    have hsame : ZRANGEBYSCORE
        (ZADD (ZADD r (c.hub.ChannelPrefix ++ c.appKey ++ "@online") T0 c.uid)
          (c.hub.ChannelPrefix ++ c.appKey ++ "@channels:" ++ ch) T0 c.sid)
        (c.hub.ChannelPrefix ++ c.appKey ++ "@online") (T1 - 120) T1
        = ZRANGEBYSCORE (ZADD r (c.hub.ChannelPrefix ++ c.appKey ++ "@online") T0 c.uid)
          (c.hub.ChannelPrefix ++ c.appKey ++ "@online") (T1 - 120) T1 := by
      unfold ZRANGEBYSCORE
      rw [ZADD_other _ _ _ _ _ (online_ne_channels _ _ ch)]
    rw [hsame, hmem]
    constructor <;> intro h <;> constructor <;> omega
  refine ⟨honline T, ?_, hcmds, ?_, ?_⟩
  · have hmem := mem_ZRANGEBYSCORE_ZADD
      (ZADD r (c.hub.ChannelPrefix ++ c.appKey ++ "@online") T0 c.uid)
      (c.hub.ChannelPrefix ++ c.appKey ++ "@channels:" ++ ch) T0 (T - 120) T c.sid
    simp only [Sender.GetOnlineByChannel, hstore]
    rw [hmem]
    constructor <;> intro h <;> constructor <;> omega
  · rw [honline (T0 + 130)]
    omega
  · intro c0 r0 h0
    have h02 : (c0.uid != "") = false := by simp [h0]
    have hc0 : Client.SubCmds c0 ch T0 =
        [RedisCmd.zadd (c0.hub.ChannelPrefix ++ c0.appKey ++ "@channels:" ++ ch) T0 c0.sid] := by
      simp only [Client.SubCmds, h02, channels_key]
      rfl
    refine ⟨hc0, ?_⟩
    simp only [Client.Sub, hc0]
    exact ZADD_other _ _ _ _ _ (online_ne_channels _ _ ch)

/-- Instance of `presence_window`: uid `U` subscribed to `r` at time 0 is online at
time 60 and no longer at time 130. -/
theorem presence_window_witness :
    presenceClient.uid ≠ "" ∧
    "U" ∈ Sender.GetOnline (Client.Sub presenceClient emptyRedis "r" 0).2 "p." "K" 60 ∧
    "U" ∉ Sender.GetOnline (Client.Sub presenceClient emptyRedis "r" 0).2 "p." "K" (0 + 130) :=
  ⟨by decide,
   (presence_window presenceClient emptyRedis "r" 0 60 (by decide)).1.2 (by decide),
   (presence_window presenceClient emptyRedis "r" 0 60 (by decide)).2.2.2.1⟩

/-! ## Hub dispatch -/

/-- C9: for a bus message whose name parses to (appKey, channel) the receive loop
makes at most one pool call.  It calls `broadcast` exactly when the channel is none
of the four sentinels and the frame is prepared, with a payload that has
IsPrepare = true, Len = the length of the raw data, Channel = channel and
AppKey = appKey.  A sentinel channel is routed to its own operation only (toUid,
toSid, reloadUidChannels, addUidChannels) once its envelope is decoded (and, for
toUid and toSid, its data serialised again), and no pool call is made when that
fails. -/
theorem dispatch_classification {J : Type} (k : Codec J) (e : Hub) (v : Message)
    (appKey channel : String) (hp : parseName e v.Channel = some (appKey, channel)) :
    (listenRedisMessage k e v).length ≤ 1 ∧
    (∀ ch p, PoolAction.broadcast ch p ∈ listenRedisMessage k e v ↔
      (channel ≠ "#GUSHERFUNC-TOUID#" ∧ channel ≠ "#GUSHERFUNC-TOSID#" ∧
       channel ≠ "#GUSHERFUNC-RELOADCHANEL#" ∧ channel ≠ "#GUSHERFUNC-ADDCHANEL#" ∧
       ∃ pMsg, k.newPreparedMessage TextMessage v.Data = some pMsg ∧ ch = channel ∧
         p = { Len := (v.Data.length : Int)
               Data := []
               PrepareMessage := some pMsg
               IsPrepare := true
               Channel := channel
               AppKey := appKey })) ∧
    (channel = "#GUSHERFUNC-TOUID#" →
      (k.unmarshalUser v.Data = none → listenRedisMessage k e v = []) ∧
      (∀ up, k.unmarshalUser v.Data = some up →
        (k.marshal up.Data = none → listenRedisMessage k e v = []) ∧
        (∀ b, k.marshal up.Data = some b →
          listenRedisMessage k e v = [PoolAction.toUid up.Uid b]))) ∧
    (channel = "#GUSHERFUNC-TOSID#" →
      (k.unmarshalSocket v.Data = none → listenRedisMessage k e v = []) ∧
      (∀ up, k.unmarshalSocket v.Data = some up →
        (k.marshal up.Data = none → listenRedisMessage k e v = []) ∧
        (∀ b, k.marshal up.Data = some b →
          listenRedisMessage k e v = [PoolAction.toSid up.Sid b]))) ∧
    (channel = "#GUSHERFUNC-RELOADCHANEL#" →
      (k.unmarshalReload v.Data = none → listenRedisMessage k e v = []) ∧
      (∀ up, k.unmarshalReload v.Data = some up →
        listenRedisMessage k e v = [PoolAction.reloadUidChannels up.Uid up.Channels])) ∧
    (channel = "#GUSHERFUNC-ADDCHANEL#" →
      (k.unmarshalAdd v.Data = none → listenRedisMessage k e v = []) ∧
      (∀ up, k.unmarshalAdd v.Data = some up →
        listenRedisMessage k e v = [PoolAction.addUidChannels up.Uid up.Channel])) := by
  unfold listenRedisMessage
  rw [hp]
  simp only []
  by_cases h1 : channel = "#GUSHERFUNC-TOUID#"
  · subst h1
    simp only [if_true]
    cases hU : k.unmarshalUser v.Data with
    | none => simp
    | some up =>
      cases hM : k.marshal up.Data with
      | none => simp [hM]
      | some b => simp [hM]
  · by_cases h2 : channel = "#GUSHERFUNC-TOSID#"
    · subst h2
      simp only [if_true]
      cases hU : k.unmarshalSocket v.Data with
      | none => simp
      | some up =>
        cases hM : k.marshal up.Data with
        | none => simp [hM]
        | some b => simp [hM]
    · by_cases h3 : channel = "#GUSHERFUNC-RELOADCHANEL#"
      · subst h3
        simp only [if_true]
        cases hU : k.unmarshalReload v.Data with
        | none => simp
        | some up => simp
      · by_cases h4 : channel = "#GUSHERFUNC-ADDCHANEL#"
        · subst h4
          simp only [if_true]
          cases hU : k.unmarshalAdd v.Data with
          | none => simp
          | some up => simp
        · rw [if_neg h1, if_neg h2, if_neg h3, if_neg h4]
          cases hN : k.newPreparedMessage TextMessage v.Data with
          | none => simp [h1, h2, h3, h4]
          | some pMsg =>
            refine ⟨by simp, ?_, fun h => absurd h h1, fun h => absurd h h2,
              fun h => absurd h h3, fun h => absurd h h4⟩
            intro ch p
            simp only [List.mem_singleton, PoolAction.broadcast.injEq, Option.some.injEq]
            constructor
            · rintro ⟨h5, h6⟩
              exact ⟨h1, h2, h3, h4, pMsg, rfl, h5, h6⟩
            · rintro ⟨_, _, _, _, q, hq, h5, h6⟩
              subst hq
              exact ⟨h5, h6⟩

/-- Instance of `dispatch_classification`: the message `hi` published on
`p.K@room` is broadcast on `room` for tenant `K`, and an empty envelope on the
reload sentinel is dropped. -/
theorem dispatch_classification_witness :
    parseName ⟨"p."⟩ "p.K@room" = some ("K", "room") ∧
    PoolAction.broadcast "room"
        { Len := 2
          Data := []
          PrepareMessage := some ⟨TextMessage, [104, 105]⟩
          IsPrepare := true
          Channel := "room"
          AppKey := "K" }
      ∈ listenRedisMessage demoCodec ⟨"p."⟩ ⟨"p.K@room", [104, 105]⟩ ∧
    listenRedisMessage demoCodec ⟨"p."⟩ ⟨"p.K@#GUSHERFUNC-RELOADCHANEL#", []⟩ = [] :=
  ⟨by decide,
   ((dispatch_classification demoCodec ⟨"p."⟩ ⟨"p.K@room", [104, 105]⟩ "K" "room"
      (by decide)).2.1 _ _).2
      ⟨by decide, by decide, by decide, by decide, ⟨TextMessage, [104, 105]⟩, rfl, rfl, rfl⟩,
   ((dispatch_classification demoCodec ⟨"p."⟩ ⟨"p.K@#GUSHERFUNC-RELOADCHANEL#", []⟩ "K"
      "#GUSHERFUNC-RELOADCHANEL#" (by decide)).2.2.2.2.1 rfl).1 rfl⟩

/-! ## Message queue -/

theorem serve_some (m : messageQueue) (b : buffer) (c : Client) (re : ReceiveMsgHandler)
    (hc : b.client = some c) (hre : c.re = some re) :
    messageQueue.serve m b =
      some ((match (re b.buffer).2 with
              | none =>
                if (re b.buffer).1.length > 0 then [PoolAction.toSid c.sid (re b.buffer).1]
                else []
              | some _ => [PoolAction.kickSid c.sid]),
            (match m.freeBufferChan.trySend (buffer.reset b none) with
              | some ch => { m with freeBufferChan := ch }
              | none => m)) := by
  simp only [messageQueue.serve, hc, hre]
  cases m.freeBufferChan.trySend (buffer.reset b none) <;> rfl

theorem serve_free_bound (m : messageQueue) (b : buffer) (acts : List PoolAction)
    (m1 : messageQueue) (h : messageQueue.serve m b = some (acts, m1))
    (hcap : m.freeBufferChan.cap = 8192) (hlen : m.freeBufferChan.buf.length ≤ 8192) :
    m1.freeBufferChan.cap = 8192 ∧ m1.freeBufferChan.buf.length ≤ 8192 := by
  unfold messageQueue.serve at h
  cases hc : b.client with
  | none => simp [hc] at h
  | some c =>
    cases hre : c.re with
    | none => simp [hc, hre] at h
    | some re =>
      simp only [hc, hre] at h
      by_cases hl : m.freeBufferChan.buf.length < m.freeBufferChan.cap
      · rw [trySend_some _ _ hl] at h
        simp only [Option.some.injEq, Prod.mk.injEq] at h
        rw [← h.2]
        refine ⟨hcap, ?_⟩
        simp only [List.length_append, List.length_singleton]
        omega
      · rw [trySend_none _ _ hl] at h
        simp only [Option.some.injEq, Prod.mk.injEq] at h
        rw [← h.2]
        exact ⟨hcap, hlen⟩

theorem serveAll_free_bound (bs : List buffer) (m : messageQueue)
    (hall : ∀ b ∈ bs, ∃ c re, b.client = some c ∧ c.re = some re)
    (hcap : m.freeBufferChan.cap = 8192) (hlen : m.freeBufferChan.buf.length ≤ 8192) :
    ∃ acts m1, serveAll m bs = some (acts, m1) ∧
      m1.freeBufferChan.cap = 8192 ∧ m1.freeBufferChan.buf.length ≤ 8192 := by
  induction bs generalizing m with
  | nil => exact ⟨[], m, rfl, hcap, hlen⟩
  | cons b bs ih =>
    obtain ⟨c, re, hc, hre⟩ := hall b (List.mem_cons_self b bs)
    have hs := serve_some m b c re hc hre
    have hb := serve_free_bound m b _ _ hs hcap hlen
    obtain ⟨rest, m2, hrest, h2⟩ :=
      ih _ (fun b1 hb1 => hall b1 (List.mem_cons_of_mem b hb1)) hb.1 hb.2
    refine ⟨(match (re b.buffer).2 with
              | none =>
                if (re b.buffer).1.length > 0 then [PoolAction.toSid c.sid (re b.buffer).1]
                else []
              | some _ => [PoolAction.kickSid c.sid]) ++ rest, m2, ?_, h2⟩
    simp only [serveAll, hs, hrest]

/-- C10: for an ingress buffer of a client with socket id s, `serve` returns after
applying the receive handler to the buffer's bytes and making exactly one of three
choices: `toSid(s, r)` when the handler returns no error and a non-empty r, no
pool call when it returns no error and an empty result, `kickSid(s)` when it
returns an error, whatever bytes came with it.  The buffer, reset, is then put
on the free list only when the free list holds fewer than 8192 buffers, so a free
list created by `NewHub` never holds more than 8192. -/
theorem serve_outcome (m : messageQueue) (b : buffer) (c : Client) (re : ReceiveMsgHandler)
    (hc : b.client = some c) (hre : c.re = some re)
    (hcap : m.freeBufferChan.cap = 8192) :
    (∃ acts m1, messageQueue.serve m b = some (acts, m1) ∧
      ((re b.buffer).2 = none → (re b.buffer).1 ≠ [] →
        acts = [PoolAction.toSid c.sid (re b.buffer).1]) ∧
      ((re b.buffer).2 = none → (re b.buffer).1 = [] → acts = []) ∧
      ((re b.buffer).2 ≠ none → acts = [PoolAction.kickSid c.sid]) ∧
      m1.serveChan = m.serveChan ∧
      m1.freeBufferChan.cap = 8192 ∧
      (m.freeBufferChan.buf.length < 8192 →
        m1.freeBufferChan.buf = m.freeBufferChan.buf ++ [buffer.reset b none]) ∧
      (¬ m.freeBufferChan.buf.length < 8192 →
        m1.freeBufferChan.buf = m.freeBufferChan.buf) ∧
      (m.freeBufferChan.buf.length ≤ 8192 → m1.freeBufferChan.buf.length ≤ 8192)) ∧
    (buffer.reset b none).buffer = [] ∧ (buffer.reset b none).client = none ∧
    NewHubMessageQueue.freeBufferChan.cap = 8192 ∧
    NewHubMessageQueue.freeBufferChan.buf = [] ∧
    (∀ bs : List buffer, (∀ b1 ∈ bs, ∃ c1 re1, b1.client = some c1 ∧ c1.re = some re1) →
      ∃ acts m1, serveAll NewHubMessageQueue bs = some (acts, m1) ∧
        m1.freeBufferChan.buf.length ≤ 8192) := by
  have hs := serve_some m b c re hc hre
  refine ⟨⟨_, _, hs, ?_, ?_, ?_, ?_, ?_, ?_, ?_, ?_⟩, rfl, rfl, rfl, rfl, ?_⟩
  · intro h1 h2
    rw [h1]
    have : (re b.buffer).1.length > 0 := List.length_pos.2 h2
    simp only [this, if_true]
  · intro h1 h2
    rw [h1, h2]
    rfl
  · intro h1
    cases h2 : (re b.buffer).2 with
    | none => exact absurd h2 h1
    | some err => rfl
  · cases m.freeBufferChan.trySend (buffer.reset b none) <;> rfl
  · by_cases hl : m.freeBufferChan.buf.length < m.freeBufferChan.cap
    · rw [trySend_some _ _ hl]
      exact hcap
    · rw [trySend_none _ _ hl]
      exact hcap
  · intro hl
    rw [trySend_some _ _ (by omega)]
  · intro hl
    rw [trySend_none _ _ (by omega)]
  · intro hl
    exact (serve_free_bound m b _ _ hs hcap hl).2
  · intro bs hall
    obtain ⟨acts, m1, h1, _, h3⟩ :=
      serveAll_free_bound bs NewHubMessageQueue hall rfl (by simp [NewHubMessageQueue, Chan.make])
    exact ⟨acts, m1, h1, h3⟩

/-- Instance of `serve_outcome`: a client echoing its input gets the two bytes it
sent back through `toSid`, and the buffer joins the empty free list. -/
theorem serve_outcome_witness :
    ∃ acts m1,
      messageQueue.serve NewHubMessageQueue ⟨[1, 2], some echoClient⟩ = some (acts, m1) ∧
      acts = [PoolAction.toSid "0000.0000000" [1, 2]] ∧
      m1.freeBufferChan.buf.length = 1 := by
  obtain ⟨⟨acts, m1, h1, h2, _, _, _, _, h7, _⟩, _⟩ :=
    serve_outcome NewHubMessageQueue ⟨[1, 2], some echoClient⟩ echoClient echoHandler
      rfl rfl rfl
  refine ⟨acts, m1, h1, h2 rfl (by decide), ?_⟩
  rw [h7 (by decide)]
  rfl

end Redisocket
